import Mathlib

set_option maxHeartbeats 1000000

/-!
Verification development for the Code-Tracker repository.

The file embeds the pure logic of the repository's two interesting pieces:

* the CSV codec of the Import/Export page (`handleExport` / `handleImport` /
  `parseCSVLine` in `src/pages/NewProblemPage.tsx`, second component of the
  file), and
* the statistics code of the Dashboard (`fetchStats` / `calculateStreak` in
  `src/pages/Dashboard.tsx`) and of the Analytics page (`activityData` in
  `src/pages/AnalyticsPage.tsx`).

Strings are handled at the `List Char` level so the character-by-character
JavaScript loops translate one-to-one.  Timestamps in the statistics code are
modelled as integer milliseconds on a DST-free local clock, so the calendar
day of a timestamp (the `toDateString` equivalence class) is its floor
quotient by 86 400 000.  `Date.parse` validity is abstracted as a Boolean
parameter `dateOk`.
-/

namespace CodeTracker

/-- One row of the `problems` table as consumed by the CSV export
(`handleExport` selects `*` and serializes ten named columns).  Nullable
columns are `Option`; timestamps travel as already-serialized strings. -/
structure ProblemRecord where
  id : String
  title : String
  platform : String
  difficulty : String
  topic : String
  status : String
  problem_url : Option String
  solution_url : Option String
  notes : Option String
  solved_at : Option String
  created_at : String
deriving Repr, DecidableEq

/-- The fixed `headers` array of `handleExport`. -/
def exportHeaders : List String :=
  ["title", "platform", "difficulty", "topic", "status", "problem_url",
   "solution_url", "notes", "solved_at", "created_at"]

/-- The ten column values `problem[header]`, in export header order. -/
def recordFields (r : ProblemRecord) : List (Option String) :=
  [some r.title, some r.platform, some r.difficulty, some r.topic,
   some r.status, r.problem_url, r.solution_url, r.notes, r.solved_at,
   some r.created_at]

/-- Embeds `Array.prototype.join(sep)` (empty array joins to `""`). -/
def joinWith (sep : String) : List String → String
  | [] => ""
  | [x] => x
  | x :: y :: xs => x ++ sep ++ joinWith sep (y :: xs)

/-- Embeds the test
`stringValue.includes(',') || stringValue.includes('"') || stringValue.includes('\n')`. -/
def csvSpecial (s : String) : Bool :=
  s.data.any fun c => c == ',' || c == '"' || c == '\n'

/-- Embeds `stringValue.replace(/"/g, '""')`. -/
def doubleQuotes (s : String) : String :=
  String.mk (s.data.flatMap fun c => if c = '"' then ['"', '"'] else [c])

/-- Field serialization inside `handleExport`: null/undefined become the
empty string; a value containing a comma, double quote or newline is wrapped
in double quotes with internal quotes doubled; any other value is emitted
bare. -/
def escapeField : Option String → String
  | none => ""
  | some s => if csvSpecial s then "\"" ++ doubleQuotes s ++ "\"" else s

/-- One data row of the export: the escaped fields joined with commas. -/
def exportRow (r : ProblemRecord) : String :=
  joinWith "," ((recordFields r).map escapeField)

/-- Pure core of `handleExport`: the header line followed by one row per
record, all joined with `'\n'`. -/
def exportToCsv (records : List ProblemRecord) : String :=
  joinWith "\n" (joinWith "," exportHeaders :: records.map exportRow)

/-- Embeds `String.prototype.trim` (whitespace at both ends removed). -/
def trimChars (cs : List Char) : List Char :=
  ((cs.dropWhile Char.isWhitespace).reverse.dropWhile Char.isWhitespace).reverse

/-- `jsTrim` is `trimChars` packaged on `String`. -/
def jsTrim (s : String) : String := String.mk (trimChars s.data)

/-- Embeds `String.prototype.split(sep)` for a one-character separator
(`''.split(sep)` gives `['']`). -/
def splitOnCharAux (sep : Char) (acc : List Char) : List Char → List (List Char)
  | [] => [acc.reverse]
  | c :: rest =>
    if c = sep then acc.reverse :: splitOnCharAux sep [] rest
    else splitOnCharAux sep (c :: acc) rest

/-- Top-level wrapper of `splitOnCharAux`. -/
def splitOnChar (sep : Char) (cs : List Char) : List (List Char) :=
  splitOnCharAux sep [] cs

/-- Embeds `h.trim().replace(/"/g, '')` applied to one header fragment:
trim, then delete every double-quote character. -/
def headerName (cs : List Char) : String :=
  String.mk ((trimChars cs).filter fun c => c != '"')

/-- Header parsing of `handleImport`:
`lines[0].split(',').map(h => h.trim().replace(/"/g, ''))` — a quote-blind
comma split. -/
def parseHeaders (line : String) : List String :=
  (splitOnChar ',' line.data).map headerName

/-- The character loop of `parseCSVLine`: `inQuotes` is the quote flag,
`current` the field being accumulated (in reverse).  A `"` inside quotes
followed by another `"` emits one literal quote and skips it; any other `"`
toggles the flag; a comma outside quotes ends the field; every other
character is appended. -/
def parseCSVLineAux (inQuotes : Bool) (current : List Char) :
    List Char → List (List Char)
  | [] => [current.reverse]
  | c :: rest =>
    if c = '"' then
      if inQuotes then
        match rest with
        | c2 :: rest2 =>
          if c2 = '"' then parseCSVLineAux true ('"' :: current) rest2
          else parseCSVLineAux false current (c2 :: rest2)
        | [] => parseCSVLineAux false current []
      else parseCSVLineAux true current rest
    else if c = ',' ∧ inQuotes = false then
      current.reverse :: parseCSVLineAux inQuotes [] rest
    else parseCSVLineAux inQuotes (c :: current) rest

/-- `parseCSVLine` of the Import/Export page. -/
def parseCSVLine (line : String) : List String :=
  (parseCSVLineAux false [] line.data).map String.mk

/-- Commas occurring outside quoted regions, counted under exactly the
quoting discipline of `parseCSVLineAux` (claim-side notion for the field
count of `parseCSVLine`). -/
def unquotedCommasAux (inQuotes : Bool) : List Char → Nat
  | [] => 0
  | c :: rest =>
    if c = '"' then
      if inQuotes then
        match rest with
        | c2 :: rest2 =>
          if c2 = '"' then unquotedCommasAux true rest2
          else unquotedCommasAux false (c2 :: rest2)
        | [] => 0
      else unquotedCommasAux true rest
    else if c = ',' ∧ inQuotes = false then
      1 + unquotedCommasAux inQuotes rest
    else unquotedCommasAux inQuotes rest

/-- Top-level wrapper of `unquotedCommasAux`. -/
def unquotedCommas (line : String) : Nat := unquotedCommasAux false line.data

/-- The problem object built by the import loop.  The JS object starts with
only `user_id`; a string field the loop never assigns stays `undefined`,
which this model represents by the initial value `""` (both are falsy in the
required-field validation, the only place the code reads them back). -/
structure ImportedProblem where
  title : String := ""
  platform : String := ""
  difficulty : String := ""
  topic : String := ""
  status : String := ""
  problem_url : Option String := none
  solution_url : Option String := none
  notes : Option String := none
  solved_at : Option String := none
deriving Repr, DecidableEq

/-- The freshly created problem object. -/
def initProblem : ImportedProblem := {}

/-- The `switch (header)` of the import loop.  `dateOk` abstracts the
JavaScript test `!isNaN(Date.parse(value))`. -/
def applyField (dateOk : String → Bool) (p : ImportedProblem)
    (header value : String) : ImportedProblem :=
  if header = "title" then { p with title := value }
  else if header = "platform" then { p with platform := value }
  else if header = "topic" then { p with topic := value }
  else if header = "difficulty" then
    { p with difficulty :=
        if value = "Easy" ∨ value = "Medium" ∨ value = "Hard" then value
        else "Easy" }
  else if header = "status" then
    { p with status :=
        if value = "Todo" ∨ value = "In Progress" ∨ value = "Solved" ∨
            value = "Reviewed" then value
        else "Todo" }
  else if header = "problem_url" then
    { p with problem_url := if value = "" then none else some value }
  else if header = "solution_url" then
    { p with solution_url := if value = "" then none else some value }
  else if header = "notes" then
    { p with notes := if value = "" then none else some value }
  else if header = "solved_at" then
    { p with solved_at :=
        if value ≠ "" ∧ dateOk value then some value else none }
  else p

/-- `values[index]?.trim() || ''`: out-of-range positions and all-whitespace
values both collapse to the empty string. -/
def importValue (values : List String) (i : Nat) : String :=
  jsTrim (values.getD i "")

/-- The `headers.forEach((header, index) => ...)` pass over one data row. -/
def buildProblem (dateOk : String → Bool) (headers values : List String) :
    ImportedProblem :=
  headers.enum.foldl
    (fun p hi => applyField dateOk p hi.2 (importValue values hi.1))
    initProblem

/-- The required-field validation
`!problem.title || !problem.platform || !problem.difficulty || !problem.topic`
(negated). -/
def validProblem (p : ImportedProblem) : Bool :=
  p.title != "" && p.platform != "" && p.difficulty != "" && p.topic != ""

/-- The data-row loop of `handleImport`: returns the constructed problems in
row order together with the number of rows skipped by the per-row
validation (the rows reported by `console.warn`). -/
def processRows (dateOk : String → Bool) (headers : List String) :
    List (List Char) → List ImportedProblem × Nat
  | [] => ([], 0)
  | line :: rest =>
    let r := processRows dateOk headers rest
    let values := parseCSVLine (String.mk line)
    if values = [] then r
    else
      let p := buildProblem dateOk headers values
      if validProblem p then (p :: r.1, r.2) else (r.1, r.2 + 1)

/-- The three `throw new Error(...)` outcomes of `handleImport`. -/
inductive ImportError where
  | malformedInput : ImportError
  | missingColumns : List String → ImportError
  | noValidRows : ImportError
deriving Repr, DecidableEq

/-- The exact message text thrown for each error. -/
def renderError : ImportError → String
  | .malformedInput => "CSV file must have a header row and at least one data row"
  | .missingColumns ms => "Missing required headers: " ++ joinWith ", " ms
  | .noValidRows => "No valid problems found in the CSV file"

/-- A successful import: the valid constructed records plus the skip count. -/
structure ImportResult where
  records : List ImportedProblem
  skippedCount : Nat
deriving Repr, DecidableEq

/-- The `requiredHeaders` array of `handleImport`. -/
def requiredHeaders : List String := ["title", "platform", "difficulty", "topic"]

/-- `text.split('\n').filter(line => line.trim())`. -/
def nonBlankLines (text : String) : List (List Char) :=
  (splitOnChar '\n' text.data).filter fun l => !(trimChars l).isEmpty

/-- Pure core of `handleImport`, up to (but not including) the database
insert. -/
def importFromCsv (dateOk : String → Bool) (text : String) :
    Except ImportError ImportResult :=
  match nonBlankLines text with
  | [] => .error .malformedInput
  | [_] => .error .malformedInput
  | headerLine :: dataLines =>
    let headers := parseHeaders (String.mk headerLine)
    let missing := requiredHeaders.filter fun h => !(headers.contains h)
    if missing ≠ [] then .error (.missingColumns missing)
    else
      let r := processRows dateOk headers dataLines
      if r.1 = [] then .error .noValidRows
      else .ok ⟨r.1, r.2⟩

/-- The bare string carried by a nullable column: the text `escapeField`
emits when the value needs no escaping (null serializes to `""`). -/
def optStr : Option String → String
  | none => ""
  | some s => s

/-- A string value that the codec carries through unchanged: it contains no
comma, double quote or newline, and no surrounding whitespace (the import
loop trims every value). -/
def plainString (s : String) : Prop := csvSpecial s = false ∧ jsTrim s = s

/-- A nullable column value whose serialization round-trips: absent, or a
non-empty plain string (the import loop coerces `""` to null). -/
def plainOpt : Option String → Prop
  | none => True
  | some s => plainString s ∧ s ≠ ""

/-- The parsed header names of the first non-blank line of a text
(claim-side view of the header step of `importFromCsv`; `headD []` covers
texts with no non-blank line at all). -/
def importHeadersOf (text : String) : List String :=
  parseHeaders (String.mk ((nonBlankLines text).headD []))

/-- The required headers absent from the parsed header row. -/
def importMissing (text : String) : List String :=
  requiredHeaders.filter fun h => !((importHeadersOf text).contains h)

/-- The records and skip count produced from the data rows of a text. -/
def importParsedRows (dateOk : String → Bool) (text : String) :
    List ImportedProblem × Nat :=
  processRows dateOk (importHeadersOf text) ((nonBlankLines text).tail)

/-- Milliseconds per calendar day. -/
def msPerDay : Int := 86400000

/-- The local calendar day of a timestamp (`toDateString` equivalence
class); integer division on `Int` is floor division for this positive
divisor. -/
def dayOf (t : Int) : Int := t / msPerDay

/-- One row of the Dashboard statistics query (`select('solved_at')` with
`status = 'Solved'`): only the fields the statistics read. -/
structure ProblemRow where
  status : String
  solved_at : Option Int
deriving Repr, DecidableEq

/-- The Dashboard query filter: `status = 'Solved'` and `solved_at` not
null, keeping the `solved_at` column. -/
def solvedQuery (rows : List ProblemRow) : List (Option Int) :=
  (rows.filter fun p => p.status == "Solved" && !p.solved_at.isNone).map
    (·.solved_at)

/-- Insertion into a non-increasing list. -/
def insertDesc (x : Int) : List Int → List Int
  | [] => [x]
  | y :: l => if y ≤ x then x :: y :: l else y :: insertDesc x l

/-- Embeds `.sort((a, b) => dateOf(b) - dateOf(a))`: a descending sort.  The
value of any descending sort is the unique non-increasing permutation of the
input, which insertion sort computes. -/
def sortDesc (l : List Int) : List Int := l.foldr insertDesc []

/-- Embeds `[...new Set(list)]`: first occurrences, in encounter order. -/
def setDedupAux (seen : List Int) : List Int → List Int
  | [] => []
  | a :: l =>
    if a ∈ seen then setDedupAux seen l else a :: setDedupAux (a :: seen) l

/-- Top-level wrapper of `setDedupAux`. -/
def setDedup (l : List Int) : List Int := setDedupAux [] l

/-- The consecutive-day loop of `calculateStreak`: walk the descending list,
adding one while the gap to the previous date is exactly one day. -/
def countConsec (prev : Int) : List Int → Nat
  | [] => 0
  | d :: rest => if prev - d = 1 then 1 + countConsec d rest else 0

/-- `calculateStreak` of the Dashboard: distinct solved days sorted
descending; streak 0 unless the most recent day is today
(`new Date().toDateString()`) or yesterday
(`new Date(Date.now() - 86400000).toDateString()`), else one plus the
consecutive run. -/
def calculateStreak (now : Int) (problems : List (Option Int)) : Nat :=
  match problems with
  | [] => 0
  | _ :: _ =>
    match setDedup (sortDesc ((problems.filterMap id).map dayOf)) with
    | [] => 0
    | d :: rest =>
      if d = dayOf now ∨ d = dayOf (now - msPerDay) then
        1 + countConsec d rest
      else 0

/-- The Dashboard streak statistic over the full problem collection. -/
def dashboardStreak (now : Int) (rows : List ProblemRow) : Nat :=
  calculateStreak now (solvedQuery rows)

/-- The `last7Days` computation of `fetchStats`: `sevenDaysAgo` is `now`
minus seven calendar days (time of day preserved), and a record counts when
`new Date(p.solved_at) >= sevenDaysAgo` — there is no upper bound. -/
def last7Days (now : Int) (problems : List (Option Int)) : Nat :=
  (problems.filter fun s =>
    match s with
    | some t => decide (now - 7 * msPerDay ≤ t)
    | none => false).length

/-- The Dashboard last-7-days statistic over the full problem collection. -/
def dashboardLast7Days (now : Int) (rows : List ProblemRow) : Nat :=
  last7Days now (solvedQuery rows)

/-- The Analytics per-day test `p.solved_at && sameCalendarDay(p.solved_at, date)`:
a null `solved_at` never matches. -/
def onDay (d : Int) : Option Int → Bool
  | some t => dayOf t == d
  | none => false

/-- One point of the Analytics `activityData` series: the calendar day
`i` days before today, with the count of records whose `solved_at` falls on
that day. -/
def activityEntry (now : Int) (problems : List (Option Int)) (i : Nat) :
    Int × Nat :=
  (dayOf now - (i : Int), (problems.filter (onDay (dayOf now - (i : Int)))).length)

/-- `activityData` of the Analytics page: the loop runs i = 29, 28, ..., 0
and pushes the entry for i, so position k holds the entry for i = 29 - k. -/
def activityData (now : Int) (problems : List (Option Int)) :
    List (Int × Nat) :=
  (List.range 30).map fun k => activityEntry now problems (29 - k)

/-- Membership of a `solved_at` value in a set of calendar days (proof-side
generalization of the per-day test). -/
def onSomeDay (days : List Int) : Option Int → Bool
  | some t => days.contains (dayOf t)
  | none => false

/-- Modelled from the spec: a `solved_at` value falling within the 30-day
window of the daily-activity series (between 29 days before today and today,
inclusive). -/
def inLast30Window (now : Int) : Option Int → Bool
  | some t => decide (dayOf now - 29 ≤ dayOf t ∧ dayOf t ≤ dayOf now)
  | none => false

/-- Modelled from the spec: the inner consecutive-run rule of the streak
description ("increments for each consecutive prior entry in `D` whose gap
to the previous entry is exactly 1 day; the first non-consecutive gap
terminates the count"). -/
def consecRunSpec (prev : Int) : List Int → Nat
  | [] => 0
  | d :: rest => if prev - d = 1 then 1 + consecRunSpec d rest else 0

/-- Modelled from the spec: the streak over the descending list `D` of
distinct solved days — 0 when `D` is empty or its most recent day is neither
today nor yesterday, otherwise 1 plus the consecutive run. -/
def streakSpec (today : Int) : List Int → Nat
  | [] => 0
  | d :: rest =>
    if d = today ∨ d = today - 1 then 1 + consecRunSpec d rest else 0

/-- Modelled from the spec: solved records whose `solvedAt` falls within the
rolling 7×24h window ending at `now`, inclusive of `now` (both bounds
enforced). -/
def last7DaysWindowSpec (now : Int) (rows : List ProblemRow) : Nat :=
  (rows.filter fun p =>
    p.status == "Solved" &&
      match p.solved_at with
      | some t => decide (now - 7 * msPerDay ≤ t ∧ t ≤ now)
      | none => false).length

/-! ## Basic lemmas on the string scanners -/

theorem parseCSVLineAux_length (inQuotes : Bool) (current cs : List Char) :
    (parseCSVLineAux inQuotes current cs).length =
      unquotedCommasAux inQuotes cs + 1 := by
  induction inQuotes, current, cs using parseCSVLineAux.induct with
  | case1 => simp [parseCSVLineAux, unquotedCommasAux]
  | _ =>
    rw [parseCSVLineAux.eq_def, unquotedCommasAux.eq_def]
    split_ifs <;> simp_all [unquotedCommasAux] <;> omega

theorem splitOnCharAux_length (sep : Char) (acc cs : List Char) :
    (splitOnCharAux sep acc cs).length = cs.count sep + 1 := by
  induction cs generalizing acc with
  | nil => simp [splitOnCharAux]
  | cons c rest ih =>
    rw [splitOnCharAux.eq_def]
    by_cases h : c = sep <;> simp [h, ih, List.count_cons]

/-- C10: `parseCSVLine` never returns an empty field list — it returns
exactly one field more than the number of commas outside quoted regions, and
the empty line yields the single field `""`; the import-loop branch that
skips a data row with an empty parse result is therefore dead. -/
theorem parseCSVLine_never_empty (line : String) :
    parseCSVLine line ≠ [] ∧
    (parseCSVLine line).length = unquotedCommas line + 1 ∧
    parseCSVLine "" = [""] := by
  refine ⟨?_, ?_, by decide⟩
  · have h := parseCSVLineAux_length false [] line.data
    intro hc
    simp [parseCSVLine] at hc
    rw [hc] at h
    simp at h
  · simpa [parseCSVLine, unquotedCommas] using
      parseCSVLineAux_length false [] line.data

/-- C9 counterexample: a quoted header containing a comma does not stay one
header name — the header row is split on the comma inside the quotes, so the
claimed value `["a,b", "c"]` is not produced. -/
theorem header_split_counterexample :
    parseHeaders "\"a,b\",c" = ["a", "b", "c"] ∧
    parseHeaders "\"a,b\",c" ≠ ["a,b", "c"] := by decide

/-- C9 (amended): the first line is split on every comma — quote-blind, so
the header count is always one more than the number of comma characters on
the line — each fragment is trimmed, and every double-quote character
(surrounding or interior) is deleted from the resulting name. -/
theorem header_split_quote_blind (line : String) :
    (parseHeaders line).length = line.data.count ',' + 1 ∧
    ∀ name ∈ parseHeaders line, '"' ∉ name.data := by
  constructor
  · simpa [parseHeaders, splitOnChar] using splitOnCharAux_length ',' [] line.data
  · intro name hname hq
    simp [parseHeaders, List.mem_map] at hname
    obtain ⟨piece, _, rfl⟩ := hname
    simp [headerName, List.mem_filter] at hq

/-- Witness for `header_split_quote_blind` at a concrete header line. -/
theorem header_split_quote_blind_witness :
    (parseHeaders "\"a,b\",c").length = "\"a,b\",c".data.count ',' + 1 ∧
    '"' ∉ "a".data :=
  ⟨(header_split_quote_blind "\"a,b\",c").1,
   (header_split_quote_blind "\"a,b\",c").2 "a" (by decide)⟩

/-- C2: export field serialization — null/undefined serializes to the empty
string; a value containing a comma, double quote or newline is wrapped in
double quotes with every internal double quote doubled; every other value is
emitted bare; and the record with title `A, "B" C` renders its title field
as `"A, ""B"" C"` in the full export output. -/
theorem export_field_escaping :
    escapeField none = "" ∧
    (∀ s : String, (∃ c ∈ s.data, c = ',' ∨ c = '"' ∨ c = '\n') →
      escapeField (some s) =
        "\"" ++
          String.mk (s.data.flatMap fun c => if c = '"' then ['"', '"'] else [c])
          ++ "\"") ∧
    (∀ s : String, (∀ c ∈ s.data, c ≠ ',' ∧ c ≠ '"' ∧ c ≠ '\n') →
      escapeField (some s) = s) ∧
    exportToCsv [⟨"id1", "A, \"B\" C", "LeetCode", "Easy", "Arrays", "Todo",
        none, none, none, none, "2024-01-01"⟩] =
      "title,platform,difficulty,topic,status,problem_url,solution_url,notes,solved_at,created_at\n\"A, \"\"B\"\" C\",LeetCode,Easy,Arrays,Todo,,,,,2024-01-01" := by
  refine ⟨rfl, ?_, ?_, by decide⟩
  · intro s hs
    have hspec : csvSpecial s = true := by
      obtain ⟨c, hc, h⟩ := hs
      simp only [csvSpecial, List.any_eq_true]
      exact ⟨c, hc, by rcases h with h | h | h <;> simp [h]⟩
    simp [escapeField, hspec, doubleQuotes]
  · intro s hs
    have hspec : csvSpecial s = false := by
      simp only [csvSpecial, List.any_eq_false]
      intro c hc
      have := hs c hc
      simp [this.1, this.2.1, this.2.2]
    simp [escapeField, hspec]

/-- Witness for `export_field_escaping` at the value `"a,b"`. -/
theorem export_field_escaping_witness :
    escapeField (some "a,b") =
      "\"" ++
        String.mk ("a,b".data.flatMap fun c => if c = '"' then ['"', '"'] else [c])
        ++ "\"" :=
  export_field_escaping.2.1 "a,b" ⟨',', by decide, Or.inl rfl⟩

/-- C8 counterexample: a solved record dated one day in the future is counted
by the Dashboard last-7-days statistic although it does not fall within the
7×24h window ending at `now`. -/
theorem last7days_counterexample :
    dashboardLast7Days 0 [⟨"Solved", some 86400000⟩] = 1 ∧
    last7DaysWindowSpec 0 [⟨"Solved", some 86400000⟩] = 0 ∧
    (1 : Nat) ≠ 0 := by decide

/-- C8 (amended): the last-7-days count equals the number of solved records
whose `solvedAt` satisfies `solvedAt ≥ now − 7×24h` — a lower bound only, so
future-dated records are also counted. -/
theorem last7days_no_upper_bound (now : Int) (rows : List ProblemRow) :
    dashboardLast7Days now rows =
      (rows.filter fun p =>
        p.status == "Solved" &&
          match p.solved_at with
          | some t => decide (now - 7 * msPerDay ≤ t)
          | none => false).length := by
  simp only [dashboardLast7Days, last7Days, solvedQuery,
    ← List.countP_eq_length_filter, List.countP_map, List.countP_filter]
  refine List.countP_congr fun p _ => ?_
  cases hp : p.solved_at <;> by_cases hst : p.status == "Solved" <;>
    simp [hp, hst, Function.comp]

/-! ## Import failure analysis, field coercion and skip counting -/

theorem parseCSVLine_ne_nil (line : String) : parseCSVLine line ≠ [] := by
  have h := parseCSVLineAux_length false [] line.data
  intro hc
  simp only [parseCSVLine] at hc
  rw [List.map_eq_nil_iff] at hc
  rw [hc] at h
  simp at h

theorem processRows_length (dateOk : String → Bool) (headers : List String)
    (rows : List (List Char)) :
    (processRows dateOk headers rows).1.length +
      (processRows dateOk headers rows).2 = rows.length := by
  induction rows with
  | nil => simp [processRows]
  | cons line rest ih =>
    have hne := parseCSVLine_ne_nil (String.mk line)
    simp only [processRows, hne, if_false]
    split_ifs <;> simp <;> omega

/-- C4: `importFromCsv` fails exactly when one of three conditions holds —
fewer than two non-blank lines (malformed input), a required header among
title/platform/difficulty/topic absent (missing columns, carrying exactly
the absent ones), or every data row skipped by per-row validation (no valid
rows) — and succeeds in every other case; on `"title,platform\nA,B"` it
fails naming `difficulty` and `topic`. -/
theorem import_failure_cases (dateOk : String → Bool) :
    (∀ text : String,
      importFromCsv dateOk text =
        if (nonBlankLines text).length < 2 then .error .malformedInput
        else if importMissing text ≠ [] then
          .error (.missingColumns (importMissing text))
        else if (importParsedRows dateOk text).1 = [] then .error .noValidRows
        else .ok ⟨(importParsedRows dateOk text).1,
                  (importParsedRows dateOk text).2⟩) ∧
    (∀ text : String,
      (importFromCsv dateOk text).isOk = false ↔
        ((nonBlankLines text).length < 2 ∨ importMissing text ≠ [] ∨
          (importParsedRows dateOk text).1 = [])) ∧
    importFromCsv dateOk "title,platform\nA,B" =
      .error (.missingColumns ["difficulty", "topic"]) ∧
    renderError (.missingColumns ["difficulty", "topic"]) =
      "Missing required headers: difficulty, topic" := by
  have main : ∀ text : String,
      importFromCsv dateOk text =
        if (nonBlankLines text).length < 2 then .error .malformedInput
        else if importMissing text ≠ [] then
          .error (.missingColumns (importMissing text))
        else if (importParsedRows dateOk text).1 = [] then .error .noValidRows
        else .ok ⟨(importParsedRows dateOk text).1,
                  (importParsedRows dateOk text).2⟩ := by
    intro text
    rcases hnb : nonBlankLines text with _ | ⟨a, _ | ⟨b, rest⟩⟩
    · simp [importFromCsv, hnb]
    · simp [importFromCsv, hnb]
    · simp only [importFromCsv, hnb, importMissing, importHeadersOf,
        importParsedRows, List.headD_cons, List.tail_cons, List.length_cons]
      have h2 : ¬ (rest.length + 1 + 1 < 2) := by omega
      rw [if_neg h2]
  refine ⟨main, ?_, by rfl, by rfl⟩
  intro text
  rw [main text]
  split_ifs <;> simp_all [Except.isOk, Except.toBool]

theorem buildProblem_export (dateOk : String → Bool)
    (t p d tp st pu su no sa ca : String) :
    buildProblem dateOk exportHeaders [t, p, d, tp, st, pu, su, no, sa, ca] =
      { title := jsTrim t
        platform := jsTrim p
        difficulty :=
          if jsTrim d = "Easy" ∨ jsTrim d = "Medium" ∨ jsTrim d = "Hard" then
            jsTrim d
          else "Easy"
        topic := jsTrim tp
        status :=
          if jsTrim st = "Todo" ∨ jsTrim st = "In Progress" ∨
              jsTrim st = "Solved" ∨ jsTrim st = "Reviewed" then jsTrim st
          else "Todo"
        problem_url := if jsTrim pu = "" then none else some (jsTrim pu)
        solution_url := if jsTrim su = "" then none else some (jsTrim su)
        notes := if jsTrim no = "" then none else some (jsTrim no)
        solved_at :=
          if jsTrim sa ≠ "" ∧ dateOk (jsTrim sa) then some (jsTrim sa)
          else none } := by
  simp +decide [buildProblem, exportHeaders, List.enum, List.enumFrom,
    applyField, importValue, initProblem]

/-- C5 counterexample: the import loop trims every parsed value before the
coercions, so the value `" A "` parsed for the `title` column is not used
verbatim — the imported record carries `"A"`. -/
theorem import_trim_counterexample :
    importFromCsv (fun _ => false) "title,platform,difficulty,topic\n A ,P,Easy,T" =
      .ok ⟨[{ title := "A", platform := "P", difficulty := "Easy",
              topic := "T" }], 0⟩ ∧
    parseCSVLine " A ,P,Easy,T" = [" A ", "P", "Easy", "T"] ∧
    ("A" : String) ≠ " A " :=
  ⟨rfl, rfl, by decide⟩

/-- C5 (amended): every parsed value is first trimmed
(`values[index]?.trim() || ''`); after that, `title`, `platform` and `topic`
are used as-is (including the empty string), `difficulty` is kept when in
Easy/Medium/Hard and defaulted to Easy otherwise, `status` is kept when in
Todo/In Progress/Solved/Reviewed and defaulted to Todo otherwise, the url
and notes fields coerce the empty string to null, `solved_at` is kept only
when non-empty and accepted by the date parser, the `created_at` value is
dropped, and values under headers outside the nine recognized names leave
the record unchanged. -/
theorem import_field_coercion (dateOk : String → Bool)
    (t p d tp st pu su no sa ca : String) :
    buildProblem dateOk exportHeaders [t, p, d, tp, st, pu, su, no, sa, ca] =
      { title := jsTrim t
        platform := jsTrim p
        difficulty :=
          if jsTrim d = "Easy" ∨ jsTrim d = "Medium" ∨ jsTrim d = "Hard" then
            jsTrim d
          else "Easy"
        topic := jsTrim tp
        status :=
          if jsTrim st = "Todo" ∨ jsTrim st = "In Progress" ∨
              jsTrim st = "Solved" ∨ jsTrim st = "Reviewed" then jsTrim st
          else "Todo"
        problem_url := if jsTrim pu = "" then none else some (jsTrim pu)
        solution_url := if jsTrim su = "" then none else some (jsTrim su)
        notes := if jsTrim no = "" then none else some (jsTrim no)
        solved_at :=
          if jsTrim sa ≠ "" ∧ dateOk (jsTrim sa) then some (jsTrim sa)
          else none } ∧
    ∀ (q : ImportedProblem) (h v : String),
      h ∉ ["title", "platform", "topic", "difficulty", "status",
           "problem_url", "solution_url", "notes", "solved_at"] →
      applyField dateOk q h v = q := by
  refine ⟨buildProblem_export dateOk t p d tp st pu su no sa ca, ?_⟩
  intro q h v hh
  simp only [List.mem_cons, List.not_mem_nil, or_false, not_or] at hh
  obtain ⟨h1, h2, h3, h4, h5, h6, h7, h8, h9⟩ := hh
  simp [applyField, h1, h2, h3, h4, h5, h6, h7, h8, h9]

/-- Witness for `import_field_coercion`: the `created_at` header is outside
the nine recognized names, so its value is ignored. -/
theorem import_field_coercion_witness :
    applyField (fun _ => true) initProblem "created_at" "2024-01-01" =
      initProblem :=
  (import_field_coercion (fun _ => true) "" "" "" "" "" "" "" "" "" "").2
    initProblem "created_at" "2024-01-01" (by decide)

/-- C6: a successful import returns the valid records together with the
count of data rows skipped by per-row validation: on a CSV with one invalid
data row (empty title) and one valid one it returns exactly one record with
`skippedCount = 1` (the bad row does not fail the import), and in general
records plus skipped rows partition the data rows. -/
theorem import_skip_count (dateOk : String → Bool) :
    importFromCsv dateOk
        "title,platform,difficulty,topic\n,P,Easy,T\nA,P,Easy,T" =
      .ok ⟨[{ title := "A", platform := "P", difficulty := "Easy",
              topic := "T" }], 1⟩ ∧
    ∀ (text : String) (res : ImportResult),
      importFromCsv dateOk text = .ok res →
      res.records.length + res.skippedCount + 1 = (nonBlankLines text).length := by
  constructor
  · rfl
  · intro text res h
    rcases hnb : nonBlankLines text with _ | ⟨a, _ | ⟨b, rest⟩⟩ <;>
      rw [importFromCsv, hnb] at h
    · simp at h
    · simp at h
    · simp only at h
      split_ifs at h with h1 h2
      rw [Except.ok.injEq] at h
      subst h
      simp only [hnb, List.length_cons]
      have hp := processRows_length dateOk (parseHeaders (String.mk a)) (b :: rest)
      simp only [List.length_cons] at hp
      omega

/-- Witness for `import_skip_count` at the two-data-row CSV above. -/
theorem import_skip_count_witness :
    (1 : Nat) + 1 + 1 =
      (nonBlankLines "title,platform,difficulty,topic\n,P,Easy,T\nA,P,Easy,T").length := by
  have h := (import_skip_count (fun _ => true)).2
    "title,platform,difficulty,topic\n,P,Easy,T\nA,P,Easy,T"
    ⟨[{ title := "A", platform := "P", difficulty := "Easy", topic := "T" }], 1⟩
    ((import_skip_count (fun _ => true)).1)
  simpa using h

/-! ## Streak: sorting and dedup lemmas -/

theorem mem_insertDesc {x y : Int} {l : List Int} :
    y ∈ insertDesc x l ↔ y = x ∨ y ∈ l := by
  induction l with
  | nil => simp [insertDesc]
  | cons a l ih =>
    simp only [insertDesc]
    split_ifs <;> (simp [ih, List.mem_cons]; try tauto)

theorem sorted_insertDesc {x : Int} {l : List Int}
    (h : l.Sorted fun a b => b ≤ a) :
    (insertDesc x l).Sorted fun a b => b ≤ a := by
  induction l with
  | nil => simp [insertDesc]
  | cons a l ih =>
    rw [List.sorted_cons] at h
    obtain ⟨ha, hl⟩ := h
    simp only [insertDesc]
    split_ifs with hxa
    · rw [List.sorted_cons]
      refine ⟨?_, List.sorted_cons.mpr ⟨ha, hl⟩⟩
      intro b hb
      rcases List.mem_cons.mp hb with rfl | hb
      · exact hxa
      · exact le_trans (ha b hb) hxa
    · rw [List.sorted_cons]
      refine ⟨?_, ih hl⟩
      intro b hb
      rcases mem_insertDesc.mp hb with rfl | hb
      · exact le_of_not_le hxa
      · exact ha b hb

theorem mem_sortDesc {y : Int} {l : List Int} : y ∈ sortDesc l ↔ y ∈ l := by
  induction l with
  | nil => simp [sortDesc]
  | cons a l ih =>
    simp only [sortDesc, List.foldr_cons] at ih ⊢
    rw [mem_insertDesc, List.mem_cons, ih]

theorem sorted_sortDesc (l : List Int) : (sortDesc l).Sorted fun a b => b ≤ a := by
  induction l with
  | nil => simp [sortDesc]
  | cons a l ih =>
    simp only [sortDesc, List.foldr_cons] at ih ⊢
    exact sorted_insertDesc ih

theorem mem_setDedupAux {y : Int} {l seen : List Int} :
    y ∈ setDedupAux seen l ↔ y ∈ l ∧ y ∉ seen := by
  induction l generalizing seen with
  | nil => simp [setDedupAux]
  | cons a l ih =>
    simp only [setDedupAux]
    split_ifs with ha
    · rw [ih, List.mem_cons]
      constructor
      · rintro ⟨hl, hs⟩
        exact ⟨Or.inr hl, hs⟩
      · rintro ⟨hla, hs⟩
        rcases hla with rfl | hl
        · exact absurd ha hs
        · exact ⟨hl, hs⟩
    · rw [List.mem_cons, ih, List.mem_cons]
      by_cases hy : y = a <;> simp [hy, ha]

theorem setDedupAux_sublist (seen l : List Int) : List.Sublist (setDedupAux seen l) l := by
  induction l generalizing seen with
  | nil => simp [setDedupAux]
  | cons a l ih =>
    simp only [setDedupAux]
    split_ifs
    · exact (ih _).trans (List.sublist_cons_self a l)
    · exact (ih _).cons₂ a

theorem nodup_setDedupAux (seen l : List Int) : (setDedupAux seen l).Nodup := by
  induction l generalizing seen with
  | nil => simp [setDedupAux]
  | cons a l ih =>
    simp only [setDedupAux]
    split_ifs
    · exact ih _
    · rw [List.nodup_cons]
      refine ⟨?_, ih _⟩
      intro hmem
      have := mem_setDedupAux.mp hmem
      exact this.2 (List.mem_cons_self a seen)

theorem mem_setDedup {y : Int} {l : List Int} : y ∈ setDedup l ↔ y ∈ l := by
  rw [setDedup, mem_setDedupAux]
  simp

theorem sorted_gt_setDedup {l : List Int} (h : l.Sorted fun a b => b ≤ a) :
    (setDedup l).Sorted (· > ·) := by
  have hsorted : (setDedup l).Sorted (fun a b => b ≤ a) :=
    List.Pairwise.sublist (setDedupAux_sublist [] l) h
  have hnd : (setDedup l).Nodup := nodup_setDedupAux [] l
  refine (hsorted.and hnd).imp ?_
  rintro a b ⟨h1, h2⟩
  exact lt_of_le_of_ne h1 h2.symm

theorem sorted_gt_eq_of_mem_iff : ∀ {l₁ l₂ : List Int},
    l₁.Sorted (· > ·) → l₂.Sorted (· > ·) → (∀ x, x ∈ l₁ ↔ x ∈ l₂) →
    l₁ = l₂ := by
  intro l₁
  induction l₁ with
  | nil =>
    intro l₂ _ _ hm
    cases l₂ with
    | nil => rfl
    | cons b t₂ => exact absurd ((hm b).mpr (List.mem_cons_self b t₂)) (by simp)
  | cons a t ih =>
    intro l₂ h₁ h₂ hm
    cases l₂ with
    | nil => exact absurd ((hm a).mp (List.mem_cons_self a t)) (by simp)
    | cons b t₂ =>
      rw [List.sorted_cons] at h₁ h₂
      have hab : a = b := by
        have ha2 : a ∈ b :: t₂ := (hm a).mp (List.mem_cons_self a t)
        have hb1 : b ∈ a :: t := (hm b).mpr (List.mem_cons_self b t₂)
        rcases List.mem_cons.mp ha2 with h | h
        · exact h
        · rcases List.mem_cons.mp hb1 with h' | h'
          · exact h'.symm
          · have hba := h₂.1 a h
            have hab' := h₁.1 b h'
            omega
      subst hab
      congr 1
      apply ih h₁.2 h₂.2
      intro x
      constructor
      · intro hx
        have hgt := h₁.1 x hx
        have hx2 : x ∈ a :: t₂ := (hm x).mp (List.mem_cons_of_mem a hx)
        rcases List.mem_cons.mp hx2 with rfl | h
        · omega
        · exact h
      · intro hx
        have hgt := h₂.1 x hx
        have hx1 : x ∈ a :: t := (hm x).mpr (List.mem_cons_of_mem a hx)
        rcases List.mem_cons.mp hx1 with rfl | h
        · omega
        · exact h

theorem countConsec_eq_spec (prev : Int) (l : List Int) :
    countConsec prev l = consecRunSpec prev l := by
  induction l generalizing prev with
  | nil => rfl
  | cons d rest ih => simp [countConsec, consecRunSpec, ih]

theorem mem_solvedDays {rows : List ProblemRow} {d : Int} :
    d ∈ ((solvedQuery rows).filterMap id).map dayOf ↔
      ∃ p ∈ rows, p.status = "Solved" ∧
        ∃ t : Int, p.solved_at = some t ∧ dayOf t = d := by
  simp only [solvedQuery]
  constructor
  · intro hd
    obtain ⟨t, ht, rfl⟩ := List.mem_map.mp hd
    obtain ⟨o, ho, hot⟩ := List.mem_filterMap.mp ht
    obtain ⟨p, hpf, rfl⟩ := List.mem_map.mp ho
    obtain ⟨hp, hPb⟩ := List.mem_filter.mp hpf
    simp only [id] at hot
    simp only [Bool.and_eq_true, beq_iff_eq] at hPb
    exact ⟨p, hp, hPb.1, t, hot, rfl⟩
  · rintro ⟨p, hp, hst, t, hpt, rfl⟩
    apply List.mem_map.mpr
    refine ⟨t, ?_, rfl⟩
    apply List.mem_filterMap.mpr
    refine ⟨p.solved_at, ?_, by rw [hpt]; rfl⟩
    apply List.mem_map.mpr
    refine ⟨p, ?_, rfl⟩
    apply List.mem_filter.mpr
    exact ⟨hp, by simp [hst, hpt]⟩

/-- C3: the Dashboard streak agrees with the specified rule on the
descending list `D` of distinct calendar days carrying a solved record —
0 when `D` is empty or its most recent day is neither today nor yesterday,
otherwise 1 plus the run of exactly-one-day gaps; solved days
today/today−1/today−2 give 3, and today−2 alone gives 0. -/
theorem streak_matches_spec :
    (∀ (now : Int) (rows : List ProblemRow) (D : List Int),
      D.Sorted (· > ·) →
      (∀ d : Int, d ∈ D ↔
        ∃ p ∈ rows, p.status = "Solved" ∧
          ∃ t : Int, p.solved_at = some t ∧ dayOf t = d) →
      dashboardStreak now rows = streakSpec (dayOf now) D) ∧
    dashboardStreak (10 * 86400000 + 3600000)
      [⟨"Solved", some (10 * 86400000 + 5)⟩,
       ⟨"Solved", some (9 * 86400000 + 7)⟩,
       ⟨"Solved", some (8 * 86400000)⟩] = 3 ∧
    dashboardStreak (10 * 86400000 + 3600000)
      [⟨"Solved", some (8 * 86400000)⟩] = 0 := by
  refine ⟨?_, by decide, by decide⟩
  intro now rows D hD hmem
  have hU : setDedup (sortDesc (((solvedQuery rows).filterMap id).map dayOf)) = D := by
    apply sorted_gt_eq_of_mem_iff (sorted_gt_setDedup (sorted_sortDesc _)) hD
    intro x
    rw [mem_setDedup, mem_sortDesc]
    exact Iff.trans mem_solvedDays ((hmem x).symm)
  have hday : dayOf (now - msPerDay) = dayOf now - 1 := by
    simp only [dayOf, msPerDay]
    omega
  cases hq : solvedQuery rows with
  | nil =>
    have hDnil : D = [] := by
      rw [hq] at hU
      simpa using hU.symm
    rw [hDnil]
    simp [dashboardStreak, hq, calculateStreak, streakSpec]
  | cons q qs =>
    rw [hq] at hU
    simp only [dashboardStreak, hq, calculateStreak, hU]
    cases D with
    | nil => simp [streakSpec]
    | cons d rest =>
      simp only [streakSpec, hday, countConsec_eq_spec]

/-- Witness for `streak_matches_spec` at a one-record collection solved
today. -/
theorem streak_matches_spec_witness :
    dashboardStreak 0 [⟨"Solved", some 0⟩] = streakSpec (dayOf 0) [0] :=
  streak_matches_spec.1 0 [⟨"Solved", some 0⟩] [0] (by simp)
    (by
      intro d
      simp [dayOf, msPerDay, eq_comm])

/-! ## Daily activity series -/

theorem length_filter_or_disjoint {α : Type} (l : List α) (p q : α → Bool)
    (h : ∀ x, ¬(p x = true ∧ q x = true)) :
    (l.filter fun x => p x || q x).length =
      (l.filter p).length + (l.filter q).length := by
  induction l with
  | nil => simp
  | cons a l ih =>
    by_cases hp : p a = true
    · have hq : ¬ q a = true := fun hq => h a ⟨hp, hq⟩
      simp [List.filter_cons, hp, hq, ih]
      omega
    · by_cases hq : q a = true <;> (simp [List.filter_cons, hp, hq, ih]; try omega)

theorem sum_counts_by_day (problems : List (Option Int)) :
    ∀ days : List Int, days.Nodup →
      ((days.map fun d => (problems.filter (onDay d)).length).sum) =
        (problems.filter (onSomeDay days)).length := by
  intro days
  induction days with
  | nil =>
    intro _
    have hfun : onSomeDay ([] : List Int) = fun _ => false := by
      funext s
      cases s <;> simp [onSomeDay]
    simp [hfun]
  | cons d ds ih =>
    intro hnd
    rw [List.nodup_cons] at hnd
    have hfun : onSomeDay (d :: ds) = fun s => onDay d s || onSomeDay ds s := by
      funext s
      cases s with
      | none => simp [onSomeDay, onDay]
      | some t =>
        simp only [onSomeDay, onDay]
        rw [Bool.eq_iff_iff]
        simp
    rw [hfun, length_filter_or_disjoint]
    · simp [ih hnd.2]
    · intro s
      rintro ⟨h1, h2⟩
      cases s with
      | none => simp [onDay] at h1
      | some t =>
        simp only [onDay, beq_iff_eq] at h1
        simp only [onSomeDay, List.elem_iff] at h2
        rw [h1] at h2
        exact hnd.1 h2

theorem window_days_eq (now : Int) :
    onSomeDay ((List.range 30).map fun (k : Nat) => dayOf now - 29 + (k : Int)) =
      inLast30Window now := by
  funext s
  cases s with
  | none => simp [onSomeDay, inLast30Window]
  | some t =>
    simp only [onSomeDay, inLast30Window, List.elem_iff, List.mem_map,
      List.mem_range, decide_eq_true_eq]
    rw [Bool.eq_iff_iff]
    simp only [List.elem_iff, List.mem_map, List.mem_range, decide_eq_true_eq]
    constructor
    · rintro ⟨k, hk, he⟩
      omega
    · intro h
      exact ⟨(dayOf t - (dayOf now - 29)).toNat, by omega, by omega⟩

/-- C7: the daily activity series always has exactly 30 entries, one per
calendar day from 29 days before today through today in oldest-to-newest
order, each counting the records whose `solvedAt` falls on that day; the
counts sum to the number of records whose `solvedAt` lies in that 30-day
window. -/
theorem activity_series (now : Int) (problems : List (Option Int)) :
    (activityData now problems).length = 30 ∧
    activityData now problems =
      ((List.range 30).map fun (k : Nat) =>
        (dayOf now - 29 + (k : Int),
         (problems.filter (onDay (dayOf now - 29 + (k : Int)))).length)) ∧
    ((activityData now problems).map Prod.snd).sum =
      (problems.filter (inLast30Window now)).length := by
  have hidx : ∀ k ∈ List.range 30,
      dayOf now - ((29 - k : Nat) : Int) = dayOf now - 29 + (k : Int) := by
    intro k hk
    rw [List.mem_range] at hk
    omega
  have hmain : activityData now problems =
      ((List.range 30).map fun (k : Nat) =>
        (dayOf now - 29 + (k : Int),
         (problems.filter (onDay (dayOf now - 29 + (k : Int)))).length)) := by
    apply List.map_congr_left
    intro k hk
    rw [activityEntry, hidx k hk]
  refine ⟨by simp [activityData], hmain, ?_⟩
  rw [hmain, ← window_days_eq now, List.map_map]
  have := sum_counts_by_day problems
    ((List.range 30).map fun (k : Nat) => dayOf now - 29 + (k : Int))
    (List.Nodup.map_on (fun x _ y _ h => by omega) (List.nodup_range 30))
  rw [← this, List.map_map]
  rfl

/-! ## Round-trip: supporting lemmas -/

theorem csvSpecial_false_iff {s : String} :
    csvSpecial s = false ↔ ',' ∉ s.data ∧ '"' ∉ s.data ∧ '\n' ∉ s.data := by
  simp only [csvSpecial, List.any_eq_false, Bool.or_eq_true, beq_iff_eq, not_or]
  constructor
  · intro h
    exact ⟨fun hm => (h ',' hm).1.1 rfl, fun hm => (h '"' hm).1.2 rfl,
           fun hm => (h '\n' hm).2 rfl⟩
  · rintro ⟨h1, h2, h3⟩ c hc
    exact ⟨⟨fun he => h1 (he ▸ hc), fun he => h2 (he ▸ hc)⟩,
           fun he => h3 (he ▸ hc)⟩

theorem escapeField_plain {s : String} (h : csvSpecial s = false) :
    escapeField (some s) = s := by
  simp [escapeField, h]

theorem escapeField_plainOpt {o : Option String} (h : plainOpt o) :
    escapeField o = optStr o := by
  cases o with
  | none => rfl
  | some s => exact escapeField_plain h.1.1

theorem splitOnCharAux_append_of_not_mem (sep : Char) (a : List Char)
    (ha : sep ∉ a) :
    ∀ (acc b : List Char),
      splitOnCharAux sep acc (a ++ sep :: b) =
        (acc.reverse ++ a) :: splitOnCharAux sep [] b := by
  induction a with
  | nil => intro acc b; simp [splitOnCharAux]
  | cons c a ih =>
    intro acc b
    have hc : ¬ c = sep := fun he => ha (he ▸ List.mem_cons_self c a)
    rw [List.cons_append, splitOnCharAux.eq_def]
    simp only [hc, if_false]
    rw [ih (fun hm => ha (List.mem_cons_of_mem c hm)) (c :: acc) b]
    simp

theorem splitOnCharAux_of_not_mem (sep : Char) (b : List Char) (hb : sep ∉ b) :
    ∀ acc : List Char, splitOnCharAux sep acc b = [acc.reverse ++ b] := by
  induction b with
  | nil => intro acc; simp [splitOnCharAux]
  | cons c b ih =>
    intro acc
    have hc : ¬ c = sep := fun he => hb (he ▸ List.mem_cons_self c b)
    rw [splitOnCharAux.eq_def]
    simp only [hc, if_false]
    rw [ih (fun hm => hb (List.mem_cons_of_mem c hm)) (c :: acc)]
    simp

theorem mem_dropWhile_of_neg {α : Type} (p : α → Bool) {x : α} :
    ∀ {l : List α}, x ∈ l → p x = false → x ∈ l.dropWhile p := by
  intro l
  induction l with
  | nil => simp
  | cons a l ih =>
    intro hx hp
    rw [List.dropWhile_cons]
    split_ifs with hpa
    · rcases List.mem_cons.mp hx with rfl | h
      · rw [hp] at hpa; cases hpa
      · exact ih h hp
    · exact hx

theorem mem_trimChars {c : Char} {cs : List Char} (hc : c ∈ cs)
    (hw : c.isWhitespace = false) : c ∈ trimChars cs := by
  unfold trimChars
  have h1 : c ∈ cs.dropWhile Char.isWhitespace := mem_dropWhile_of_neg _ hc hw
  have h2 : c ∈ (cs.dropWhile Char.isWhitespace).reverse := List.mem_reverse.mpr h1
  have h3 := mem_dropWhile_of_neg _ h2 hw
  exact List.mem_reverse.mpr h3

theorem trimChars_ne_nil {c : Char} {cs : List Char} (hc : c ∈ cs)
    (hw : c.isWhitespace = false) : trimChars cs ≠ [] :=
  List.ne_nil_of_mem (mem_trimChars hc hw)

theorem joinWith_data_subset (sep : String) :
    ∀ (l : List String) (c : Char), c ∈ (joinWith sep l).data →
      (∃ s ∈ l, c ∈ s.data) ∨ c ∈ sep.data := by
  intro l
  induction l with
  | nil => intro c hc; simp [joinWith] at hc
  | cons x l ih =>
    cases l with
    | nil =>
      intro c hc
      exact Or.inl ⟨x, by simp, by simpa [joinWith] using hc⟩
    | cons y t =>
      intro c hc
      simp only [joinWith, String.data_append, List.append_assoc,
        List.mem_append] at hc
      rcases hc with hc | hc | hc
      · exact Or.inl ⟨x, by simp, hc⟩
      · exact Or.inr hc
      · rcases ih c hc with ⟨s, hs, hcs⟩ | hsep
        · exact Or.inl ⟨s, List.mem_cons_of_mem x hs, hcs⟩
        · exact Or.inr hsep

theorem mk_data (s : String) : String.mk s.data = s := rfl

theorem parseCSVLineAux_plain_prefix (a : List Char)
    (ha : ∀ c ∈ a, c ≠ ',' ∧ c ≠ '"') :
    ∀ (acc rest : List Char),
      parseCSVLineAux false acc (a ++ rest) =
        parseCSVLineAux false (a.reverse ++ acc) rest := by
  induction a with
  | nil => intro acc rest; simp
  | cons c a ih =>
    intro acc rest
    have hc := ha c (List.mem_cons_self c a)
    rw [List.cons_append, parseCSVLineAux.eq_def]
    simp only [hc.2, if_false, hc.1, false_and, if_false]
    rw [ih (fun d hd => ha d (List.mem_cons_of_mem c hd)) (c :: acc) rest]
    simp

theorem parseCSVLineAux_join :
    ∀ vs : List String, vs ≠ [] →
      (∀ s ∈ vs, ∀ c ∈ s.data, c ≠ ',' ∧ c ≠ '"') →
      parseCSVLineAux false [] (joinWith "," vs).data = vs.map String.data := by
  intro vs
  induction vs with
  | nil => intro h; cases h rfl
  | cons x vs ih =>
    intro _ hplain
    have hx : ∀ c ∈ x.data, c ≠ ',' ∧ c ≠ '"' :=
      hplain x (List.mem_cons_self x vs)
    cases vs with
    | nil =>
      show parseCSVLineAux false [] (x.data) = [x.data]
      have := parseCSVLineAux_plain_prefix x.data hx [] []
      simp only [List.append_nil] at this
      rw [this]
      simp [parseCSVLineAux]
    | cons y t =>
      show parseCSVLineAux false [] (x ++ "," ++ joinWith "," (y :: t)).data = _
      rw [String.data_append, String.data_append]
      have hcomma : (",").data = [','] := rfl
      rw [hcomma, List.append_assoc]
      have hstep := parseCSVLineAux_plain_prefix x.data hx []
        ([','] ++ (joinWith "," (y :: t)).data)
      rw [hstep]
      rw [List.singleton_append, parseCSVLineAux.eq_def]
      simp only [List.append_nil]
      norm_num
      rw [ih (by simp) (fun s hs => hplain s (List.mem_cons_of_mem x hs))]
      simp

theorem parseCSVLine_join (vs : List String) (hne : vs ≠ [])
    (hplain : ∀ s ∈ vs, ∀ c ∈ s.data, c ≠ ',' ∧ c ≠ '"') :
    parseCSVLine (joinWith "," vs) = vs := by
  rw [parseCSVLine, parseCSVLineAux_join vs hne hplain, List.map_map]
  have : (String.mk ∘ String.data) = id := by
    funext s
    exact mk_data s
  rw [this, List.map_id]

theorem escapeField_optStr {o : Option String}
    (h : csvSpecial (optStr o) = false) : escapeField o = optStr o := by
  cases o with
  | none => rfl
  | some s => exact escapeField_plain h

theorem coerceOpt_optStr {o : Option String} (h : plainOpt o) :
    (if jsTrim (optStr o) = "" then none else some (jsTrim (optStr o))) = o := by
  cases o with
  | none => simp [optStr, jsTrim, trimChars]
  | some s =>
    show (if jsTrim s = "" then none else some (jsTrim s)) = some s
    rw [h.1.2, if_neg h.2]

/-- C1 counterexample: a record whose title carries a trailing space (no
comma, quote or newline anywhere) does not survive the export/import round
trip field-for-field — the import loop trims the value, so the title comes
back as `"A"` instead of `"A "`. -/
theorem csv_roundtrip_counterexample :
    importFromCsv (fun _ => false)
        (exportToCsv [⟨"id1", "A ", "P", "Easy", "T", "Todo", none, none,
          none, none, "2024-01-01"⟩]) =
      .ok ⟨[{ title := "A", platform := "P", difficulty := "Easy",
              topic := "T", status := "Todo" }], 0⟩ ∧
    ("A" : String) ≠ "A " :=
  ⟨rfl, by decide⟩

/-- C1 (amended): for a record whose serialized field values contain no
comma, double quote or newline, whose eight content fields additionally
carry no surrounding whitespace, whose title/platform/topic are non-empty,
whose difficulty and status lie in their enumerations, and whose nullable
text fields are never the empty string, importing the export of `[r]`
succeeds and yields exactly one record agreeing with `r` on all eight
content fields (id and the timestamps excluded, as import does not
reconstruct them as identifiers). -/
theorem csv_roundtrip (dateOk : String → Bool) (r : ProblemRecord)
    (htitle : plainString r.title) (hplat : plainString r.platform)
    (htopic : plainString r.topic)
    (htne : r.title ≠ "") (hpne : r.platform ≠ "") (htopne : r.topic ≠ "")
    (hdiff : r.difficulty = "Easy" ∨ r.difficulty = "Medium" ∨
      r.difficulty = "Hard")
    (hstat : r.status = "Todo" ∨ r.status = "In Progress" ∨
      r.status = "Solved" ∨ r.status = "Reviewed")
    (hpu : plainOpt r.problem_url) (hsu : plainOpt r.solution_url)
    (hno : plainOpt r.notes)
    (hsa : csvSpecial (optStr r.solved_at) = false)
    (hca : csvSpecial r.created_at = false) :
    ∃ rec : ImportedProblem,
      importFromCsv dateOk (exportToCsv [r]) = .ok ⟨[rec], 0⟩ ∧
      rec.title = r.title ∧ rec.platform = r.platform ∧
      rec.difficulty = r.difficulty ∧ rec.topic = r.topic ∧
      rec.status = r.status ∧ rec.problem_url = r.problem_url ∧
      rec.solution_url = r.solution_url ∧ rec.notes = r.notes := by
  have hdplain : plainString r.difficulty := by
    rcases hdiff with h | h | h <;> rw [h] <;> exact ⟨by decide, by decide⟩
  have hsplain : plainString r.status := by
    rcases hstat with h | h | h | h <;> rw [h] <;> exact ⟨by decide, by decide⟩
  have hdne : r.difficulty ≠ "" := by
    rcases hdiff with h | h | h <;> rw [h] <;> decide
  have hplainOptStr : ∀ o : Option String, plainOpt o →
      csvSpecial (optStr o) = false := by
    rintro (_ | s) h
    · decide
    · exact h.1.1
  set vs : List String := [r.title, r.platform, r.difficulty, r.topic,
    r.status, optStr r.problem_url, optStr r.solution_url, optStr r.notes,
    optStr r.solved_at, r.created_at] with hvs
  have hall : ∀ s ∈ vs, csvSpecial s = false := by
    intro s hs
    rw [hvs] at hs
    simp only [List.mem_cons, List.not_mem_nil, or_false] at hs
    rcases hs with rfl | rfl | rfl | rfl | rfl | rfl | rfl | rfl | rfl | rfl
    · exact htitle.1
    · exact hplat.1
    · exact hdplain.1
    · exact htopic.1
    · exact hsplain.1
    · exact hplainOptStr _ hpu
    · exact hplainOptStr _ hsu
    · exact hplainOptStr _ hno
    · exact hsa
    · exact hca
  have hexport : exportToCsv [r] =
      joinWith "," exportHeaders ++ "\n" ++ joinWith "," vs := by
    have hmap : (recordFields r).map escapeField = vs := by
      rw [recordFields, hvs]
      simp only [List.map_cons, List.map_nil]
      rw [escapeField_plain htitle.1, escapeField_plain hplat.1,
        escapeField_plain hdplain.1, escapeField_plain htopic.1,
        escapeField_plain hsplain.1, escapeField_optStr (hplainOptStr _ hpu),
        escapeField_optStr (hplainOptStr _ hsu),
        escapeField_optStr (hplainOptStr _ hno), escapeField_optStr hsa,
        escapeField_plain hca]
    show joinWith "\n" [joinWith "," exportHeaders, exportRow r] = _
    rw [exportRow, hmap]
    rfl
  have hheadNl : '\n' ∉ (joinWith "," exportHeaders).data := by decide
  have hrowNl : '\n' ∉ (joinWith "," vs).data := by
    intro hm
    rcases joinWith_data_subset "," vs '\n' hm with ⟨s, hs, hcs⟩ | hsep
    · exact (csvSpecial_false_iff.mp (hall s hs)).2.2 hcs
    · simp at hsep
  have hcm : ',' ∈ (joinWith "," vs).data := by
    rw [hvs]
    show ',' ∈ (joinWith "," (_ :: _ :: _)).data
    simp [joinWith, String.data_append]
  have hsplitText : nonBlankLines (exportToCsv [r]) =
      [(joinWith "," exportHeaders).data, (joinWith "," vs).data] := by
    rw [hexport, nonBlankLines]
    rw [String.data_append, String.data_append]
    have hnl : ("\n").data = ['\n'] := rfl
    rw [hnl, List.append_assoc, List.singleton_append]
    rw [splitOnChar, splitOnCharAux_append_of_not_mem '\n' _ hheadNl []]
    rw [splitOnCharAux_of_not_mem '\n' _ hrowNl []]
    simp only [List.reverse_nil, List.nil_append]
    have h1 : (!(trimChars (joinWith "," exportHeaders).data).isEmpty) = true := by
      decide
    have h2 : (!(trimChars (joinWith "," vs).data).isEmpty) = true := by
      have hne := trimChars_ne_nil hcm (by decide)
      simpa [List.isEmpty_iff] using hne
    simp [List.filter_cons, h1, h2]
  have hrowParse : parseCSVLine (String.mk (joinWith "," vs).data) = vs := by
    rw [mk_data]
    apply parseCSVLine_join
    · rw [hvs]; simp
    · intro s hs c hc
      have h := csvSpecial_false_iff.mp (hall s hs)
      exact ⟨fun he => h.1 (he ▸ hc), fun he => h.2.1 (he ▸ hc)⟩
  have hbuild : buildProblem dateOk exportHeaders vs =
      { title := r.title, platform := r.platform,
        difficulty := r.difficulty, topic := r.topic, status := r.status,
        problem_url := r.problem_url, solution_url := r.solution_url,
        notes := r.notes,
        solved_at :=
          if jsTrim (optStr r.solved_at) ≠ "" ∧
              dateOk (jsTrim (optStr r.solved_at)) then
            some (jsTrim (optStr r.solved_at))
          else none } := by
    rw [hvs, buildProblem_export, htitle.2, hplat.2, hdplain.2, htopic.2,
      hsplain.2, if_pos hdiff, if_pos hstat, coerceOpt_optStr hpu,
      coerceOpt_optStr hsu, coerceOpt_optStr hno]
  refine ⟨({ title := r.title, platform := r.platform,
             difficulty := r.difficulty, topic := r.topic,
             status := r.status, problem_url := r.problem_url,
             solution_url := r.solution_url, notes := r.notes,
             solved_at :=
               if jsTrim (optStr r.solved_at) ≠ "" ∧
                   dateOk (jsTrim (optStr r.solved_at)) then
                 some (jsTrim (optStr r.solved_at))
               else none } : ImportedProblem),
    ?_, rfl, rfl, rfl, rfl, rfl, rfl, rfl, rfl⟩
  have hvalid : validProblem
      { title := r.title, platform := r.platform,
        difficulty := r.difficulty, topic := r.topic, status := r.status,
        problem_url := r.problem_url, solution_url := r.solution_url,
        notes := r.notes,
        solved_at :=
          if jsTrim (optStr r.solved_at) ≠ "" ∧
              dateOk (jsTrim (optStr r.solved_at)) then
            some (jsTrim (optStr r.solved_at))
          else none } = true := by
    simp [validProblem, bne_iff_ne, htne, hpne, htopne, hdne]
  have hrows : processRows dateOk exportHeaders [(joinWith "," vs).data] =
      ([{ title := r.title, platform := r.platform,
          difficulty := r.difficulty, topic := r.topic, status := r.status,
          problem_url := r.problem_url, solution_url := r.solution_url,
          notes := r.notes,
          solved_at :=
            if jsTrim (optStr r.solved_at) ≠ "" ∧
                dateOk (jsTrim (optStr r.solved_at)) then
              some (jsTrim (optStr r.solved_at))
            else none }], 0) := by
    have hvsne : vs ≠ [] := by rw [hvs]; simp
    simp only [processRows, hrowParse, hvsne, if_false, hbuild, hvalid,
      if_true]
  unfold importFromCsv
  rw [hsplitText]
  simp only [mk_data]
  have hhead : parseHeaders (joinWith "," exportHeaders) = exportHeaders := by
    decide
  rw [hhead]
  have hmiss : requiredHeaders.filter
      (fun h => !(exportHeaders.contains h)) = [] := by decide
  rw [hmiss]
  rw [if_neg (by simp)]
  rw [hrows]
  simp

/-- Witness for `csv_roundtrip` at a concrete record. -/
theorem csv_roundtrip_witness :
    ∃ rec : ImportedProblem,
      importFromCsv (fun _ => true)
          (exportToCsv [⟨"id1", "Two Sum", "LeetCode", "Easy", "Arrays",
            "Solved", some "https://a", none, none, some "2024-01-02",
            "2024-01-01"⟩]) = .ok ⟨[rec], 0⟩ ∧
      rec.title = "Two Sum" ∧ rec.platform = "LeetCode" ∧
      rec.difficulty = "Easy" ∧ rec.topic = "Arrays" ∧
      rec.status = "Solved" ∧ rec.problem_url = some "https://a" ∧
      rec.solution_url = none ∧ rec.notes = none :=
  csv_roundtrip (fun _ => true)
    ⟨"id1", "Two Sum", "LeetCode", "Easy", "Arrays", "Solved",
     some "https://a", none, none, some "2024-01-02", "2024-01-01"⟩
    ⟨by decide, by decide⟩ ⟨by decide, by decide⟩ ⟨by decide, by decide⟩
    (by decide) (by decide) (by decide) (Or.inl rfl) (Or.inr (Or.inr (Or.inl rfl)))
    ⟨⟨by decide, by decide⟩, by decide⟩ trivial trivial (by decide) (by decide)

end CodeTracker
